import Mathlib

/-!
Verification of the cost-delta estimator of this repository
(script estimate-cost.js: resource-map driven pricing lookups with
memoization, before/after monthly-cost computation across ADD, UPDATE and
REMOVE resource changes, and aggregation of a total delta).

The JavaScript source is shallowly embedded: JSON numbers are modelled as
rationals, JSON strings as String, absent or null JSON fields as Option,
JavaScript objects used as ordered key/value records as association lists.
JavaScript truthiness on a string field (empty string, null and undefined
are falsy) is modelled by the predicate truthy below; truthiness on a
numeric field (0 is falsy) by truthyQ.  The external AWS pricing service
is modelled as a deterministic oracle mapping a service code and a filter
list to a response; a thrown network or parse error is the response
constructor LookupResponse.err, which the estimator catches.
-/

namespace CostEst

/-- Commonly tested string literals of the source. -/
def underscoreS : String := "_"

def unknownS : String := "Unknown"

def nullS : String := "null"

def undefinedS : String := "undefined"

def emptyS : String := ""

def locationS : String := "location"

def arrowS : String := " → "

/-- Action tag of a resource change in the diff JSON: ADD, UPDATE or REMOVE. -/
inductive DiffAction where
  | ADD : DiffAction
  | UPDATE : DiffAction
  | REMOVE : DiffAction
deriving DecidableEq

/-- One property change of a resource, as produced by the diff script
(fields name, oldValue, newValue; values are strings or null). -/
structure PropertyDiff where
  name : String
  oldValue : Option String
  newValue : Option String
deriving DecidableEq

/-- One resource change entry of a stack in the diff JSON
(fields logicalId, type, action, properties). -/
structure ResourceChange where
  logicalId : String
  type : String
  action : DiffAction
  properties : List PropertyDiff
deriving DecidableEq

/-- One stack entry of the diff JSON (fields stackName, hasDiff, resources). -/
structure StackDiff where
  stackName : String
  hasDiff : Bool
  resources : List ResourceChange
deriving DecidableEq

/-- The whole parsed diff JSON, as the list held by its stacks member
(the estimator reads diffData.stacks or [], so the report is exactly
this list). -/
abbrev ChangeReport := List StackDiff

/-- ValueSpec of a FilterSpec in resource-map.json: an object with the
optional fields default and cfProperty. -/
structure ValueSpec where
  default : Option String
  cfProperty : Option String
deriving DecidableEq

/-- One pricing filter specification of a PricingRule (fields Field, Value). -/
structure FilterSpec where
  Field : String
  Value : ValueSpec
deriving DecidableEq

/-- One entry of resource-map.json: how to price one resource type.
The unit field and the note field are carried by the JSON but the cost
computation reads only serviceCode, monthlyHours, monthlyQuantity, filters. -/
structure PricingRule where
  serviceCode : String
  unit : String
  monthlyHours : Option ℚ
  monthlyQuantity : Option ℚ
  filters : List FilterSpec
  note : Option String
deriving DecidableEq

/-- The parsed resource-map.json.  Its reserved key holding the free list
is modelled by the field free (the source reads resourceMap._free or []);
the remaining type-to-rule entries by the association list rules.  The
estimator looks a type up only after ruling out types that start with an
underscore, so the reserved key is never hit by the lookup. -/
structure ResourceMap where
  free : List String
  rules : List (String × PricingRule)
deriving DecidableEq

/-- Object-property lookup resourceMap[resType] of the source. -/
def ResourceMap.findRule (m : ResourceMap) (resType : String) : Option PricingRule :=
  (m.rules.find? (fun kv => kv.fst == resType)).map (fun kv => kv.snd)

/-- A concrete filter sent to the pricing query (fields Field, Value).
The source sends it as a TERM_MATCH triple; the Type member is the
constant TERM_MATCH and is dropped here. -/
structure QueryFilter where
  Field : String
  Value : String
deriving DecidableEq

/-- Result of a successful pricing lookup (fields usd, unit, description). -/
structure PriceQuote where
  usd : ℚ
  unit : String
  description : String
deriving DecidableEq

/-- One price dimension of an on-demand offer in a pricing product.  The
field usd models parseFloat of pricePerUnit.USD or 0 when absent; unit
and description model the corresponding members or the empty string. -/
structure PriceDimension where
  usd : ℚ
  unit : String
  description : String
deriving DecidableEq

/-- One on-demand offer: its priceDimensions object, absent when the
member is missing.  Keyed objects are modelled as lists of their values
in Object.keys order. -/
structure Offer where
  priceDimensions : Option (List PriceDimension)
deriving DecidableEq

/-- One product parsed from the PriceList: its terms.OnDemand object,
absent when either member is missing. -/
structure Product where
  onDemand : Option (List Offer)
deriving DecidableEq

/-- Outcome of one GetProducts call: a thrown error (network failure or a
JSON parse failure inside the try block, both caught by the source) or a
PriceList array of products. -/
inductive LookupResponse where
  | err : String → LookupResponse
  | ok : List Product → LookupResponse
deriving DecidableEq

/-- JavaScript truthiness of a string-or-absent value: null, undefined
and the empty string are falsy. -/
def truthy : Option String → Bool
  | none => false
  | some s => s ≠ emptyS

/-- JavaScript truthiness of a number-or-absent value: null, undefined
and 0 are falsy. -/
def truthyQ : Option ℚ → Bool
  | none => false
  | some x => x ≠ 0

/-- Comparison by Field used by cacheKey to sort the filters
(the source compares with localeCompare; any fixed total order on the
field names yields the same canonicalization behaviour). -/
def filterLe (a b : QueryFilter) : Prop := a.Field ≤ b.Field

instance : DecidableRel filterLe :=
  fun a b => inferInstanceAs (Decidable (a.Field ≤ b.Field))

instance : IsTotal QueryFilter filterLe := ⟨fun a b => le_total a.Field b.Field⟩

instance : IsTrans QueryFilter filterLe := ⟨fun _ _ _ h1 h2 => le_trans h1 h2⟩

/-- Stable sort of the filters by field name, as in cacheKey
(JavaScript Array.prototype.sort is stable). -/
def sortFilters (fs : List QueryFilter) : List QueryFilter :=
  List.insertionSort filterLe fs

/-- Canonical memoization key of queryPrice.  The source builds it as
JSON.stringify of the object holding serviceCode and the sorted filters;
stringify is injective on these shapes, so the key is modelled by the
pair itself. -/
structure CacheKey where
  serviceCode : String
  filters : List QueryFilter
deriving DecidableEq

/-- The function cacheKey of the source. -/
def cacheKey (serviceCode : String) (filters : List QueryFilter) : CacheKey :=
  ⟨serviceCode, sortFilters filters⟩

/-- State of one run of the script around the pricing cache.  The field
cache models the Map priceCache (most recent entry first).  The fields
calls and requests are ghost instrumentation absent from the source:
calls records every GetProducts request actually sent to the pricing
service, requests records every invocation of queryPrice; both store the
(serviceCode, filters) arguments. -/
structure CacheState where
  cache : List (CacheKey × Option PriceQuote)
  calls : List (String × List QueryFilter)
  requests : List (String × List QueryFilter)
deriving DecidableEq

/-- Lookup priceCache.get guarded by priceCache.has. -/
def findCache (cache : List (CacheKey × Option PriceQuote)) (k : CacheKey) :
    Option (Option PriceQuote) :=
  (cache.find? (fun e => e.fst == k)).map (fun e => e.snd)

/-- The filter list actually sent: the resolved filters as TERM_MATCH
conditions plus the constant location filter for the run's region. -/
def allFilters (fs : List QueryFilter) (loc : String) : List QueryFilter :=
  fs ++ [⟨locationS, loc⟩]

/-- Scan of the priceDimensions values for the first dimension with a
positive USD price, as in the inner loop of queryPrice. -/
def findPositiveDim : List PriceDimension → Option PriceQuote
  | [] => none
  | d :: rest =>
    if 0 < d.usd then some ⟨d.usd, d.unit, d.description⟩ else findPositiveDim rest

/-- Scan of the OnDemand offers, skipping offers without priceDimensions,
as in the outer loop of queryPrice. -/
def extractQuote : List Offer → Option PriceQuote
  | [] => none
  | o :: rest =>
    match o.priceDimensions with
    | none => extractQuote rest
    | some dims =>
      match findPositiveDim dims with
      | some q => some q
      | none => extractQuote rest

/-- Pure body of queryPrice after the GetProducts call: a thrown error is
caught and yields null; an empty PriceList, a product without
terms.OnDemand, and a product whose dimensions are all zero-priced also
yield null; otherwise the first positive-priced dimension is the quote. -/
def interpLookup : LookupResponse → Option PriceQuote
  | .err _ => none
  | .ok [] => none
  | .ok (p :: _) =>
    match p.onDemand with
    | none => none
    | some offers => extractQuote offers

/-- Environment of one estimation run: the pricing-service oracle, the
resolved location name of the run's region, and the parsed resource map. -/
structure EstCtx where
  svc : String → List QueryFilter → LookupResponse
  locationName : String
  resourceMap : ResourceMap

/-- The function queryPrice of the source: consult the cache under the
canonical key; on a miss, send the request, interpret the response, and
cache the outcome (null outcomes included).  Returns the quote-or-null
together with the updated cache state. -/
def queryPrice (ctx : EstCtx) (st : CacheState) (serviceCode : String)
    (filters : List QueryFilter) : Option PriceQuote × CacheState :=
  let key := cacheKey serviceCode filters
  let st1 : CacheState := { st with requests := st.requests ++ [(serviceCode, filters)] }
  match findCache st1.cache key with
  | some v => (v, st1)
  | none =>
    let result := interpLookup (ctx.svc serviceCode (allFilters filters ctx.locationName))
    (result,
      { st1 with
        cache := (key, result) :: st1.cache,
        calls := st1.calls ++ [(serviceCode, filters)] })

/-- The function resolveFilterValue of the source. -/
def resolveFilterValue (valueDef : ValueSpec) (properties : List PropertyDiff)
    (useNew : Bool) : Option String :=
  if truthy valueDef.default && !truthy valueDef.cfProperty then valueDef.default
  else if truthy valueDef.cfProperty then
    match properties.find? (fun p => some p.name == valueDef.cfProperty) with
    | some prop =>
      let val := if useNew then prop.newValue else prop.oldValue
      if truthy val && val != some nullS && val != some undefinedS then val
      else if truthy valueDef.default then valueDef.default else none
    | none => if truthy valueDef.default then valueDef.default else none
  else none

/-- The function buildFilters of the source: resolve each FilterSpec in
order and keep only truthy values. -/
def buildFilters (mapping : PricingRule) (properties : List PropertyDiff)
    (useNew : Bool) : List QueryFilter :=
  mapping.filters.filterMap (fun f =>
    if truthy (resolveFilterValue f.Value properties useNew) then
      some ⟨f.Field, (resolveFilterValue f.Value properties useNew).getD emptyS⟩
    else none)

/-- The function monthlyCost of the source.  The source tests the
multipliers with JavaScript truthiness, so a multiplier equal to 0 is
passed over exactly like an absent one. -/
def monthlyCost (unitPrice : ℚ) (mapping : PricingRule) : ℚ :=
  if truthyQ mapping.monthlyHours then unitPrice * mapping.monthlyHours.getD 0
  else if truthyQ mapping.monthlyQuantity then unitPrice * mapping.monthlyQuantity.getD 0
  else unitPrice

/-- Test for an ASCII hexadecimal digit, the character class of the
trailing-hash regex of cleanId (case-insensitive A to F or a digit). -/
def isHexChar (c : Char) : Bool :=
  decide (('0' ≤ c ∧ c ≤ '9') ∨ ('a' ≤ c ∧ c ≤ 'f') ∨ ('A' ≤ c ∧ c ≤ 'F'))

/-- First replace of cleanId: strip a trailing run of exactly eight hex
characters (the CDK logical-id hash) when present. -/
def stripHexSuffix (cs : List Char) : List Char :=
  if 8 ≤ cs.length ∧ (cs.drop (cs.length - 8)).all isHexChar then
    cs.take (cs.length - 8)
  else cs

/-- ASCII lower-case letter, the regex class of the second replace. -/
def asciiLower (c : Char) : Bool := decide ('a' ≤ c ∧ c ≤ 'z')

/-- ASCII upper-case letter, the regex class of the second replace. -/
def asciiUpper (c : Char) : Bool := decide ('A' ≤ c ∧ c ≤ 'Z')

/-- Second replace of cleanId: insert a space between every lower-case
letter followed by an upper-case letter. -/
def camelSplit : List Char → List Char
  | [] => []
  | [c] => [c]
  | a :: b :: rest =>
    if asciiLower a && asciiUpper b then a :: ' ' :: camelSplit (b :: rest)
    else a :: camelSplit (b :: rest)

/-- The function cleanId of the source. -/
def cleanId (id : String) : String := ⟨camelSplit (stripHexSuffix id.data)⟩

/-- Scanner behind shortType: split on double colons from the left and
keep the last segment, as t.split followed by pop does. -/
def shortTypeGo : List Char → List Char → List Char
  | [], acc => acc.reverse
  | [c], acc => (c :: acc).reverse
  | c :: c2 :: rest2, acc =>
    if c = ':' ∧ c2 = ':' then shortTypeGo rest2 []
    else shortTypeGo (c2 :: rest2) (c :: acc)

/-- The function shortType of the source. -/
def shortType (t : String) : String := ⟨shortTypeGo t.data []⟩

/-- Test whether a string starts with an underscore, as the source's
startsWith call does. -/
def startsUnderscore (s : String) : Bool :=
  match s.data with
  | [] => false
  | c :: _ => c == '_'

/-- Guard at the top of the resource loop: types starting with an
underscore and the placeholder type Unknown are skipped entirely. -/
def skipRes (res : ResourceChange) : Bool :=
  startsUnderscore res.type || res.type == unknownS

/-- Change-detail scan for UPDATE rows: walk the rule's FilterSpecs in
order and stop at the first cfProperty filter whose property change has
truthy old and new values that differ, formatting them with an arrow;
the detail stays empty when no filter qualifies. -/
def findDetail : List FilterSpec → List PropertyDiff → String
  | [], _ => emptyS
  | f :: rest, props =>
    if truthy f.Value.cfProperty then
      match props.find? (fun p => some p.name == f.Value.cfProperty) with
      | some prop =>
        if truthy prop.oldValue && truthy prop.newValue &&
            prop.oldValue != prop.newValue then
          prop.oldValue.getD emptyS ++ arrowS ++ prop.newValue.getD emptyS
        else findDetail rest props
      | none => findDetail rest props
    else findDetail rest props

/-- One output row pushed by the main loop of the source. -/
structure CostRow where
  stack : String
  id : String
  type : String
  detail : String
  action : DiffAction
  before : Option ℚ
  after : Option ℚ
  delta : Option ℚ
deriving DecidableEq

/-- Row emitted for a resource whose type has no resource-map entry. -/
def nullRow (stackName : String) (res : ResourceChange) : CostRow :=
  { stack := stackName, id := cleanId res.logicalId, type := shortType res.type,
    detail := emptyS, action := res.action, before := none, after := none, delta := none }

/-- The delta expression of the source: when at least one direction was
priced, after-or-0 minus before-or-0 (on numbers the JavaScript
or-default and the null-coalescing default agree, 0 being the only falsy
number); otherwise null. -/
def mkDelta (beforeCost afterCost : Option ℚ) : Option ℚ :=
  if beforeCost.isSome || afterCost.isSome then
    some (afterCost.getD 0 - beforeCost.getD 0)
  else none

/-- Outcome of the per-action pricing block of the main loop. -/
structure PriceOutcome where
  beforeCost : Option ℚ
  afterCost : Option ℚ
  pricedInc : ℕ
  cache : CacheState

/-- Per-action pricing block of the main loop: ADD prices the new
direction into afterCost, REMOVE prices the old direction into
beforeCost, UPDATE prices both directions; pricedCount increments when
at least one lookup of the resource succeeded. -/
def priceDirections (ctx : EstCtx) (mapping : PricingRule) (res : ResourceChange)
    (cache : CacheState) : PriceOutcome :=
  match res.action with
  | .ADD =>
    let r := queryPrice ctx cache mapping.serviceCode (buildFilters mapping res.properties true)
    match r.fst with
    | some price => ⟨none, some (monthlyCost price.usd mapping), 1, r.snd⟩
    | none => ⟨none, none, 0, r.snd⟩
  | .REMOVE =>
    let r := queryPrice ctx cache mapping.serviceCode (buildFilters mapping res.properties false)
    match r.fst with
    | some price => ⟨some (monthlyCost price.usd mapping), none, 1, r.snd⟩
    | none => ⟨none, none, 0, r.snd⟩
  | .UPDATE =>
    let rOld := queryPrice ctx cache mapping.serviceCode (buildFilters mapping res.properties false)
    let rNew := queryPrice ctx rOld.snd mapping.serviceCode (buildFilters mapping res.properties true)
    ⟨rOld.fst.map (fun p => monthlyCost p.usd mapping),
     rNew.fst.map (fun p => monthlyCost p.usd mapping),
     if rOld.fst.isSome || rNew.fst.isSome then 1 else 0,
     rNew.snd⟩

/-- Accumulated state of the main loop of the source. -/
structure EstState where
  rows : List CostRow
  totalDelta : ℚ
  pricedCount : ℕ
  freeCount : ℕ
  cache : CacheState

/-- Body of the resource loop of the source, in order: skip underscore
and Unknown types; tally free-listed types; emit a null row for types
without a rule; otherwise price the change, compute the delta,
accumulate it when non-null, compute the UPDATE detail and emit the row. -/
def processResource (ctx : EstCtx) (stackName : String) (res : ResourceChange)
    (st : EstState) : EstState :=
  if skipRes res then st
  else if ctx.resourceMap.free.contains res.type then
    { st with freeCount := st.freeCount + 1 }
  else
    match ctx.resourceMap.findRule res.type with
    | none => { st with rows := st.rows ++ [nullRow stackName res] }
    | some mapping =>
      let oc := priceDirections ctx mapping res st.cache
      let delta := mkDelta oc.beforeCost oc.afterCost
      let detail :=
        if res.action = DiffAction.UPDATE then findDetail mapping.filters res.properties
        else emptyS
      let row : CostRow :=
        { stack := stackName, id := cleanId res.logicalId,
          type := shortType res.type, detail := detail, action := res.action,
          before := oc.beforeCost, after := oc.afterCost, delta := delta }
      { rows := st.rows ++ [row],
        totalDelta := (match delta with
          | some d => st.totalDelta + d
          | none => st.totalDelta),
        pricedCount := st.pricedCount + oc.pricedInc,
        freeCount := st.freeCount,
        cache := oc.cache }

/-- Inner resource loop over one stack. -/
def processResources (ctx : EstCtx) (stackName : String) :
    List ResourceChange → EstState → EstState
  | [], st => st
  | r :: rs, st => processResources ctx stackName rs (processResource ctx stackName r st)

/-- One stack of the outer loop: stacks without differences are skipped. -/
def processStack (ctx : EstCtx) (s : StackDiff) (st : EstState) : EstState :=
  if s.hasDiff then processResources ctx s.stackName s.resources st else st

/-- Outer stack loop. -/
def processStacks (ctx : EstCtx) : List StackDiff → EstState → EstState
  | [], st => st
  | s :: ss, st => processStacks ctx ss (processStack ctx s st)

/-- Initial state of main: no rows, zero totals, empty cache. -/
def initState : EstState :=
  { rows := [], totalDelta := 0, pricedCount := 0, freeCount := 0,
    cache := { cache := [], calls := [], requests := [] } }

/-- The whole estimation of main over a parsed report. -/
def estimate (ctx : EstCtx) (report : ChangeReport) : EstState :=
  processStacks ctx report initState

/-- Count of rows without pricing data, as computed for the markdown
footnote (rows whose delta is null, whether the type had no rule or its
lookups failed). -/
def unmappedCount (rows : List CostRow) : ℕ :=
  (rows.filter (fun r => r.delta.isNone)).length

/-- Everything the estimation surfaces to the presentation layer: the
rows, the accumulated total, and the aggregate counts. -/
structure EstResult where
  rows : List CostRow
  totalDelta : ℚ
  pricedCount : ℕ
  freeCount : ℕ
  unmapped : ℕ
deriving DecidableEq

/-- Projection of a finished run onto its surfaced result. -/
def estResult (ctx : EstCtx) (report : ChangeReport) : EstResult :=
  let st := estimate ctx report
  { rows := st.rows, totalDelta := st.totalDelta, pricedCount := st.pricedCount,
    freeCount := st.freeCount, unmapped := unmappedCount st.rows }

/-- Outcome of parsing the two JSON inputs of the script: either both
parsed, or the caught parse error's message. -/
inductive ParsedInput where
  | malformed : String → ParsedInput
  | ok : ChangeReport → ResourceMap → ParsedInput

/-- What the script surfaces: on a parse failure a structured error and
no estimation; otherwise the full estimation state. -/
inductive ScriptResult where
  | failed : String → ScriptResult
  | estimated : EstState → ScriptResult

/-- Top level of the script: only a parse failure of the inputs skips
the estimation, and it is reported as a structured error. -/
def runEstimator (svc : String → List QueryFilter → LookupResponse) (loc : String) :
    ParsedInput → ScriptResult
  | .malformed msg => .failed msg
  | .ok report m => .estimated (estimate ⟨svc, loc, m⟩ report)

/-- Keys of the requests actually sent to the pricing service, up to
canonicalization. -/
def callKeys (st : CacheState) : List CacheKey :=
  st.calls.map (fun c => cacheKey c.fst c.snd)

/-- Cache bookkeeping invariant of a run: the cached keys are exactly
the canonical keys of the sent requests (most recent first), no
canonical key was sent twice, and every queryPrice invocation left its
key cached. -/
def CacheInv (st : CacheState) : Prop :=
  st.cache.map Prod.fst = (callKeys st).reverse ∧
  (callKeys st).Nodup ∧
  ∀ q ∈ st.requests, cacheKey q.fst q.snd ∈ st.cache.map Prod.fst

/-- Cache-free description of one lookup: what the oracle answers for
this service code and filter list, interpreted like queryPrice does. -/
def pureLookup (ctx : EstCtx) (serviceCode : String) (filters : List QueryFilter) :
    Option PriceQuote :=
  interpLookup (ctx.svc serviceCode (allFilters filters ctx.locationName))

/-- The pure lookup read off a canonical cache key. -/
def canonLookup (ctx : EstCtx) (k : CacheKey) : Option PriceQuote :=
  pureLookup ctx k.serviceCode k.filters

/-- A pricing oracle is order-insensitive when reordering the filters of
a request cannot change its response; the real pricing service treats
the filters as a set of match conditions. -/
def OrderInsensitive (ctx : EstCtx) : Prop :=
  ∀ sc fs fs', sortFilters fs = sortFilters fs' →
    ctx.svc sc (allFilters fs ctx.locationName) = ctx.svc sc (allFilters fs' ctx.locationName)

/-- A cache is coherent when every stored value is what the oracle gives
for its key. -/
def CoherentCache (ctx : EstCtx) (st : CacheState) : Prop :=
  ∀ e ∈ st.cache, e.snd = canonLookup ctx e.fst

/-- Cache-free per-direction costs of one resource change, mirroring
priceDirections through pureLookup. -/
def pureOutcome (ctx : EstCtx) (mapping : PricingRule) (res : ResourceChange) :
    Option ℚ × Option ℚ :=
  match res.action with
  | .ADD =>
    (none,
     (pureLookup ctx mapping.serviceCode (buildFilters mapping res.properties true)).map
       (fun p => monthlyCost p.usd mapping))
  | .REMOVE =>
    ((pureLookup ctx mapping.serviceCode (buildFilters mapping res.properties false)).map
       (fun p => monthlyCost p.usd mapping),
     none)
  | .UPDATE =>
    ((pureLookup ctx mapping.serviceCode (buildFilters mapping res.properties false)).map
       (fun p => monthlyCost p.usd mapping),
     (pureLookup ctx mapping.serviceCode (buildFilters mapping res.properties true)).map
       (fun p => monthlyCost p.usd mapping))

/-- The row one resource change contributes, as a function of the oracle
and of that resource alone. -/
def rowOf (ctx : EstCtx) (stackName : String) (res : ResourceChange) : CostRow :=
  match ctx.resourceMap.findRule res.type with
  | none => nullRow stackName res
  | some mapping =>
    let bc := (pureOutcome ctx mapping res).fst
    let ac := (pureOutcome ctx mapping res).snd
    { stack := stackName, id := cleanId res.logicalId, type := shortType res.type,
      detail := (if res.action = DiffAction.UPDATE then
        findDetail mapping.filters res.properties else emptyS),
      action := res.action, before := bc, after := ac, delta := mkDelta bc ac }

/-- A resource change survives the skip guard and the free list, so the
loop body prices it (or emits a null row for a missing rule). -/
def keepRes (m : ResourceMap) (res : ResourceChange) : Bool :=
  !skipRes res && !m.free.contains res.type

/-- The resource changes a run emits rows for, with their stack names:
those of stacks with differences that pass the guard and the free list. -/
def processedChanges (m : ResourceMap) (report : ChangeReport) :
    List (String × ResourceChange) :=
  (report.filter (fun s => s.hasDiff)).flatMap (fun s =>
    (s.resources.filter (fun r => keepRes m r)).map (fun r => (s.stackName, r)))

/-- Qualification test of one FilterSpec in the UPDATE detail scan: a
cfProperty filter whose property change carries truthy old and new
values that differ. -/
def detailMatches (props : List PropertyDiff) (f : FilterSpec) : Bool :=
  truthy f.Value.cfProperty &&
    (match props.find? (fun p => some p.name == f.Value.cfProperty) with
     | some prop =>
       truthy prop.oldValue && truthy prop.newValue && prop.oldValue != prop.newValue
     | none => false)

/-- Detail string formatted from the property change a FilterSpec points
at. -/
def detailFor (props : List PropertyDiff) (f : FilterSpec) : String :=
  match props.find? (fun p => some p.name == f.Value.cfProperty) with
  | some prop => prop.oldValue.getD emptyS ++ arrowS ++ prop.newValue.getD emptyS
  | none => emptyS

/-- Monthly cost read the way the specification sentence words it: the
hourly multiplier applies whenever the field is present, else the
quantity multiplier whenever present, else the unit price stands.  Kept
apart from monthlyCost, which follows the source's truthiness test, so
the two readings can be compared. -/
def specMonthlyCost (unitPrice : ℚ) (mapping : PricingRule) : ℚ :=
  match mapping.monthlyHours with
  | some h => unitPrice * h
  | none =>
    match mapping.monthlyQuantity with
    | some q => unitPrice * q
    | none => unitPrice

/-- Row bookkeeping invariant of a run: every emitted row carries the
delta recomputed from its own before and after costs, and the running
total is the sum of the non-null deltas of the emitted rows. -/
def RowsOK (st : EstState) : Prop :=
  (∀ row ∈ st.rows, row.delta = mkDelta row.before row.after) ∧
  st.totalDelta = (st.rows.filterMap (fun r => r.delta)).sum

/-- Concrete fixture: a positively priced dimension. -/
def dimPos : PriceDimension := { usd := 3, unit := "Hrs", description := "on demand" }

/-- Concrete fixture: the quote extracted from dimPos. -/
def quotePos : PriceQuote := { usd := 3, unit := "Hrs", description := "on demand" }

/-- Concrete fixture: a product holding dimPos. -/
def prodPos : Product := { onDemand := some [{ priceDimensions := some [dimPos] }] }

/-- Concrete fixture: a zero-priced dimension. -/
def dimZero : PriceDimension := { usd := 0, unit := "Hrs", description := "free tier" }

/-- Concrete fixture: a matched product all of whose dimensions are
zero-priced. -/
def prodZero : Product := { onDemand := some [{ priceDimensions := some [dimZero] }] }

/-- Concrete fixture: an oracle that always matches prodPos. -/
def svcPos : String → List QueryFilter → LookupResponse :=
  fun _ _ => LookupResponse.ok [prodPos]

/-- Concrete fixture: an oracle whose every call throws. -/
def svcErr : String → List QueryFilter → LookupResponse :=
  fun _ _ => LookupResponse.err "network failure"

/-- Concrete fixture: a fromProperty ValueSpec without default. -/
def vsInstanceType : ValueSpec := { default := none, cfProperty := some "InstanceType" }

/-- Concrete fixture: a defaulted ValueSpec. -/
def vsOS : ValueSpec := { default := some "Linux", cfProperty := none }

/-- Concrete fixture FilterSpecs of ruleHours. -/
def fsInstanceType : FilterSpec := { Field := "instanceType", Value := vsInstanceType }

def fsOS : FilterSpec := { Field := "operatingSystem", Value := vsOS }

/-- Concrete fixture: an hourly-multiplied pricing rule. -/
def ruleHours : PricingRule :=
  { serviceCode := "AmazonEC2", unit := "Hrs", monthlyHours := some 2,
    monthlyQuantity := none, filters := [fsInstanceType, fsOS], note := none }

/-- Concrete fixture: a rule carrying a zero hourly multiplier next to a
nonzero quantity multiplier. -/
def ruleZeroHours : PricingRule :=
  { serviceCode := "AmazonEC2", unit := "Hrs", monthlyHours := some 0,
    monthlyQuantity := some 2, filters := [], note := none }

/-- Concrete fixture: a resource map with one priced type and one free
type. -/
def mapEC2 : ResourceMap :=
  { free := ["AWS::IAM::Role"], rules := [("AWS::EC2::Instance", ruleHours)] }

/-- Concrete fixture: a run environment over mapEC2 with the always
matching oracle. -/
def ctxPos : EstCtx :=
  { svc := svcPos, locationName := "US East (N. Virginia)", resourceMap := mapEC2 }

/-- Concrete fixture: the same environment with the throwing oracle. -/
def ctxErr : EstCtx :=
  { svc := svcErr, locationName := "US East (N. Virginia)", resourceMap := mapEC2 }

/-- Concrete fixture: an InstanceType property change. -/
def propInstType : PropertyDiff :=
  { name := "InstanceType", oldValue := some "t3.small", newValue := some "t3.large" }

/-- Concrete fixture: an added EC2 instance. -/
def resAdd : ResourceChange :=
  { logicalId := "WebServer", type := "AWS::EC2::Instance",
    action := DiffAction.ADD, properties := [propInstType] }

/-- Concrete fixture: an updated EC2 instance. -/
def resUpd : ResourceChange :=
  { logicalId := "WebServer", type := "AWS::EC2::Instance",
    action := DiffAction.UPDATE, properties := [propInstType] }

/-- Concrete fixture: a resource of the placeholder type Unknown. -/
def resUnknown : ResourceChange :=
  { logicalId := "Mystery", type := "Unknown", action := DiffAction.ADD, properties := [] }

/-- Concrete fixture: a free-listed IAM role change. -/
def resRole : ResourceChange :=
  { logicalId := "AppRole", type := "AWS::IAM::Role",
    action := DiffAction.ADD, properties := [] }

/-- Concrete fixture: a report with one differing stack holding one added
instance. -/
def reportAdd : ChangeReport :=
  [{ stackName := "Net", hasDiff := true, resources := [resAdd] }]

/-- Concrete fixture: the same report with the added instance twice, to
exercise the cache. -/
def reportAddTwice : ChangeReport :=
  [{ stackName := "Net", hasDiff := true,
     resources := [resAdd, { resAdd with logicalId := "WebServerB" }] }]

/-- Concrete fixture: a resource whose type starts with an underscore
while also being free-listed. -/
def resOdd : ResourceChange :=
  { logicalId := "Odd", type := "_x", action := DiffAction.ADD, properties := [] }

/-- Concrete fixture: a map that free-lists the underscore type. -/
def mapFreeOdd : ResourceMap := { free := ["_x"], rules := [] }

/-- Concrete fixture: environment and report pricing resOdd. -/
def ctxFreeOdd : EstCtx :=
  { svc := svcErr, locationName := "US East (N. Virginia)", resourceMap := mapFreeOdd }

def reportFreeOdd : ChangeReport :=
  [{ stackName := "Net", hasDiff := true, resources := [resOdd] }]

/-- Concrete fixture: an added queue used to compare a missing rule with
a failing lookup. -/
def resQueue : ResourceChange :=
  { logicalId := "Jobs", type := "AWS::SQS::Queue",
    action := DiffAction.ADD, properties := [] }

def reportQueue : ChangeReport :=
  [{ stackName := "Net", hasDiff := true, resources := [resQueue] }]

/-- Concrete fixture: environment whose map has no rule for the queue. -/
def ctxNoRule : EstCtx :=
  { svc := svcPos, locationName := "US East (N. Virginia)",
    resourceMap := { free := [], rules := [] } }

/-- Concrete fixture: a per-request pricing rule for the queue type. -/
def ruleQueue : PricingRule :=
  { serviceCode := "AmazonSQS", unit := "Requests", monthlyHours := none,
    monthlyQuantity := some 1000000, filters := [], note := none }

/-- Concrete fixture: environment whose map has a rule for the queue but
whose every lookup throws. -/
def ctxRuleFails : EstCtx :=
  { svc := svcErr, locationName := "US East (N. Virginia)",
    resourceMap := { free := [], rules := [("AWS::SQS::Queue", ruleQueue)] } }

/-- Concrete fixture: the row the added instance produces under ctxPos
(unit price 3, hourly multiplier 2). -/
def rowAddPos : CostRow :=
  { stack := "Net", id := "Web Server", type := "Instance", detail := "",
    action := DiffAction.ADD, before := none, after := some 6, delta := some 6 }

/-- Concrete fixture: the pricing request both added instances of
reportAddTwice resolve to. -/
def qAdd : String × List QueryFilter :=
  ("AmazonEC2", [{ Field := "instanceType", Value := "t3.large" },
                 { Field := "operatingSystem", Value := "Linux" }])

/-- The row the loop body emits for a resource priced under a rule,
reading the costs off priceDirections at the given cache. -/
def mappedRowAt (ctx : EstCtx) (mapping : PricingRule) (sn : String)
    (res : ResourceChange) (cache : CacheState) : CostRow :=
  { stack := sn, id := cleanId res.logicalId, type := shortType res.type,
    detail := (if res.action = DiffAction.UPDATE then
      findDetail mapping.filters res.properties else emptyS),
    action := res.action,
    before := (priceDirections ctx mapping res cache).beforeCost,
    after := (priceDirections ctx mapping res cache).afterCost,
    delta := mkDelta (priceDirections ctx mapping res cache).beforeCost
      (priceDirections ctx mapping res cache).afterCost }

/-- The whole state the loop body produces for a resource priced under a
rule. -/
def mappedState (ctx : EstCtx) (mapping : PricingRule) (sn : String)
    (res : ResourceChange) (st : EstState) : EstState :=
  { rows := st.rows ++ [mappedRowAt ctx mapping sn res st.cache],
    totalDelta := (match mkDelta (priceDirections ctx mapping res st.cache).beforeCost
        (priceDirections ctx mapping res st.cache).afterCost with
      | some d => st.totalDelta + d
      | none => st.totalDelta),
    pricedCount := st.pricedCount + (priceDirections ctx mapping res st.cache).pricedInc,
    freeCount := st.freeCount,
    cache := (priceDirections ctx mapping res st.cache).cache }

/-!
Helper lemmas: branch characterizations of the loop body, and the
preservation of the bookkeeping invariants along a run.
-/

theorem proc_skip (ctx : EstCtx) (sn : String) (res : ResourceChange) (st : EstState)
    (hs : skipRes res = true) : processResource ctx sn res st = st := by
  simp [processResource, hs]

theorem proc_free (ctx : EstCtx) (sn : String) (res : ResourceChange) (st : EstState)
    (hs : skipRes res = false) (hf : ctx.resourceMap.free.contains res.type = true) :
    processResource ctx sn res st = { st with freeCount := st.freeCount + 1 } := by
  have hf2 : res.type ∈ ctx.resourceMap.free := by simpa using hf
  simp [processResource, hs, hf2]

theorem proc_none (ctx : EstCtx) (sn : String) (res : ResourceChange) (st : EstState)
    (hs : skipRes res = false) (hf : ctx.resourceMap.free.contains res.type = false)
    (hr : ctx.resourceMap.findRule res.type = none) :
    processResource ctx sn res st = { st with rows := st.rows ++ [nullRow sn res] } := by
  have hf2 : res.type ∉ ctx.resourceMap.free := by simpa using hf
  simp [processResource, hs, hf2, hr, nullRow]

theorem proc_mapped (ctx : EstCtx) (sn : String) (res : ResourceChange) (st : EstState)
    (mapping : PricingRule)
    (hs : skipRes res = false) (hf : ctx.resourceMap.free.contains res.type = false)
    (hr : ctx.resourceMap.findRule res.type = some mapping) :
    processResource ctx sn res st = mappedState ctx mapping sn res st := by
  have hf2 : res.type ∉ ctx.resourceMap.free := by simpa using hf
  simp [processResource, hs, hf2, hr, mappedState, mappedRowAt]

theorem rowsOK_proc (ctx : EstCtx) (sn : String) (res : ResourceChange) (st : EstState)
    (h : RowsOK st) : RowsOK (processResource ctx sn res st) := by
  obtain ⟨h1, h2⟩ := h
  cases hs : skipRes res with
  | true => rw [proc_skip ctx sn res st hs]; exact ⟨h1, h2⟩
  | false =>
    cases hf : ctx.resourceMap.free.contains res.type with
    | true => rw [proc_free ctx sn res st hs hf]; exact ⟨h1, h2⟩
    | false =>
      cases hr : ctx.resourceMap.findRule res.type with
      | none =>
        rw [proc_none ctx sn res st hs hf hr]
        constructor
        · intro row hrow
          rcases List.mem_append.mp hrow with hh | hh
          · exact h1 row hh
          · have heq : row = nullRow sn res := by simpa using hh
            subst heq
            simp [nullRow, mkDelta]
        · simpa [List.filterMap_append, nullRow] using h2
      | some mapping =>
        rw [proc_mapped ctx sn res st mapping hs hf hr]
        constructor
        · intro row hrow
          rcases (by simpa [mappedState] using hrow :
              row ∈ st.rows ∨ row = mappedRowAt ctx mapping sn res st.cache) with hh | hh
          · exact h1 row hh
          · subst hh
            simp [mappedRowAt]
        · rcases hd : mkDelta (priceDirections ctx mapping res st.cache).beforeCost
              (priceDirections ctx mapping res st.cache).afterCost with _ | d
          · simp [mappedState, mappedRowAt, List.filterMap_append, hd, h2]
          · simp [mappedState, mappedRowAt, List.filterMap_append, hd, h2]

theorem rowsOK_procs (ctx : EstCtx) (sn : String) (rs : List ResourceChange) :
    ∀ st, RowsOK st → RowsOK (processResources ctx sn rs st) := by
  induction rs with
  | nil => intro st h; exact h
  | cons r rs ih => intro st h; exact ih _ (rowsOK_proc ctx sn r st h)

theorem rowsOK_stack (ctx : EstCtx) (s : StackDiff) (st : EstState) (h : RowsOK st) :
    RowsOK (processStack ctx s st) := by
  unfold processStack
  by_cases hd : s.hasDiff
  · simpa [hd] using rowsOK_procs ctx s.stackName s.resources st h
  · simpa [hd] using h

theorem rowsOK_stacks (ctx : EstCtx) (ss : List StackDiff) :
    ∀ st, RowsOK st → RowsOK (processStacks ctx ss st) := by
  induction ss with
  | nil => intro st h; exact h
  | cons s ss ih => intro st h; exact ih _ (rowsOK_stack ctx s st h)

theorem rowsOK_estimate (ctx : EstCtx) (report : ChangeReport) :
    RowsOK (estimate ctx report) := by
  refine rowsOK_stacks ctx report initState ⟨?_, ?_⟩
  · intro row hrow
    simp [initState] at hrow
  · simp [initState]

/-- C1: for every emitted row (those of resources with a PricingRule
included), delta equals after-or-0 minus before-or-0 exactly when at
least one direction was priced and is null (not zero) otherwise, and
totalDelta is the sum of exactly the non-null deltas over all emitted
rows. -/
theorem delta_and_total (ctx : EstCtx) (report : ChangeReport) :
    (∀ row ∈ (estimate ctx report).rows,
      row.delta = (if row.before.isSome || row.after.isSome then
        some (row.after.getD 0 - row.before.getD 0) else none)) ∧
    (estimate ctx report).totalDelta =
      ((estimate ctx report).rows.filterMap (fun r => r.delta)).sum := by
  obtain ⟨h1, h2⟩ := rowsOK_estimate ctx report
  exact ⟨fun row hr => h1 row hr, h2⟩

/-- Witness for C1: the delta shape at the concrete added-instance row
and the concrete total. -/
theorem delta_and_total_w :
    rowAddPos.delta = (if rowAddPos.before.isSome || rowAddPos.after.isSome then
      some (rowAddPos.after.getD 0 - rowAddPos.before.getD 0) else none) ∧
    (estimate ctxPos reportAdd).totalDelta =
      ((estimate ctxPos reportAdd).rows.filterMap (fun r => r.delta)).sum := by
  refine ⟨(delta_and_total ctxPos reportAdd).1 rowAddPos ?_, (delta_and_total ctxPos reportAdd).2⟩
  have hr : (estimate ctxPos reportAdd).rows = [rowAddPos] := by with_unfolding_all rfl
  rw [hr]
  exact List.mem_singleton.mpr rfl

/-- C10: a resource change whose type starts with an underscore or
equals Unknown is skipped entirely by the loop body: the state is left
untouched, so no row is emitted, no pricing traffic happens, and no
aggregate count moves. -/
theorem underscore_unknown_skipped (ctx : EstCtx) (sn : String) (res : ResourceChange)
    (st : EstState) (h : startsUnderscore res.type = true ∨ res.type = unknownS) :
    processResource ctx sn res st = st := by
  have hs : skipRes res = true := by
    rcases h with h | h
    · simp [skipRes, h]
    · simp [skipRes, h]
  exact proc_skip ctx sn res st hs

/-- Witness for C10 at the Unknown-typed fixture resource. -/
theorem underscore_unknown_skipped_w :
    processResource ctxPos "Net" resUnknown initState = initState :=
  underscore_unknown_skipped ctxPos "Net" resUnknown initState (Or.inr rfl)

/-- C8 counterexample: a lookup that matches a product all of whose
price dimensions are zero-priced produces no quote, exactly the outcome
of a lookup whose product list is empty, so a matched zero price is not
distinct from no match, and no quote with a zero unit price is ever
returned. -/
theorem zero_price_conflated :
    interpLookup (LookupResponse.ok [prodZero]) = none ∧
    interpLookup (LookupResponse.ok []) = none := by
  exact ⟨by decide, rfl⟩

theorem findPositiveDim_pos (dims : List PriceDimension) (q : PriceQuote)
    (h : findPositiveDim dims = some q) : 0 < q.usd := by
  induction dims with
  | nil => simp [findPositiveDim] at h
  | cons d rest ih =>
    by_cases hd : 0 < d.usd
    · rw [findPositiveDim, if_pos hd] at h
      cases h
      exact hd
    · rw [findPositiveDim, if_neg hd] at h
      exact ih h

theorem extractQuote_pos (offers : List Offer) (q : PriceQuote)
    (h : extractQuote offers = some q) : 0 < q.usd := by
  induction offers with
  | nil => simp [extractQuote] at h
  | cons o rest ih =>
    rw [extractQuote] at h
    rcases ho : o.priceDimensions with _ | dims
    · rw [ho] at h
      exact ih h
    · rw [ho] at h
      have h2 : (match findPositiveDim dims with
          | some q3 => some q3
          | none => extractQuote rest) = some q := h
      cases hf : findPositiveDim dims with
      | none =>
        rw [hf] at h2
        exact ih h2
      | some q2 =>
        rw [hf] at h2
        have hq : q2 = q := by injection h2
        exact hq ▸ findPositiveDim_pos dims q2 hf

/-- C8 (amended): every returned PriceQuote carries a strictly positive
unit price; a zero-priced match, a product without on-demand terms, an
empty product list and a thrown error all yield no quote alike. -/
theorem quote_strictly_positive (resp : LookupResponse) (q : PriceQuote)
    (h : interpLookup resp = some q) : 0 < q.usd := by
  cases resp with
  | err e => simp [interpLookup] at h
  | ok ps =>
    cases ps with
    | nil => simp [interpLookup] at h
    | cons p rest =>
      rw [interpLookup] at h
      rcases hp : p.onDemand with _ | offers
      · rw [hp] at h
        cases h
      · rw [hp] at h
        exact extractQuote_pos offers q h

/-- Witness for C8 at the concrete positively priced product. -/
theorem quote_strictly_positive_w : 0 < quotePos.usd :=
  quote_strictly_positive (LookupResponse.ok [prodPos]) quotePos (by decide)

/-- C6 counterexample: with the underscore type listed free, the guard
skips the resource before the free check, so the free count stays 0
rather than incrementing by one. -/
theorem free_list_undercount :
    mapFreeOdd.free.contains resOdd.type = true ∧
    (estimate ctxFreeOdd reportFreeOdd).freeCount = 0 ∧
    (estimate ctxFreeOdd reportFreeOdd).rows = [] := by
  exact ⟨by decide, by decide, by decide⟩

/-- C6 (amended): for every resource change whose type is free-listed
and which passes the underscore/Unknown guard, the loop body only
increments the free count: no pricing query is issued, no row and no
delta are produced, and totalDelta is untouched. -/
theorem free_resource_tally (ctx : EstCtx) (sn : String) (res : ResourceChange)
    (st : EstState) (hf : ctx.resourceMap.free.contains res.type = true)
    (hs : skipRes res = false) :
    processResource ctx sn res st = { st with freeCount := st.freeCount + 1 } :=
  proc_free ctx sn res st hs hf

/-- Witness for C6 at the free-listed IAM role fixture. -/
theorem free_resource_tally_w :
    processResource ctxPos "Net" resRole initState =
      { initState with freeCount := initState.freeCount + 1 } :=
  free_resource_tally ctxPos "Net" resRole initState (by decide) (by decide)

/-- C7 counterexample: a run whose map lacks a rule for the queue type
and a run whose map prices it but whose lookup fails surface identical
results: the same rows, the same totals and the same aggregate counts,
so the no-mapping case is not distinguishable downstream from the
lookup-failure case. -/
theorem no_rule_indistinguishable :
    ctxNoRule.resourceMap.findRule resQueue.type = none ∧
    ctxRuleFails.resourceMap.findRule resQueue.type = some ruleQueue ∧
    estResult ctxNoRule reportQueue = estResult ctxRuleFails reportQueue := by
  exact ⟨by decide, by decide, by decide⟩

/-- C7 (amended): a resource change whose type has no ResourceMap entry
yields a CostRow with null before, after and delta, leaves totalDelta
and the other counts unchanged, does not abort the run, and raises the
aggregate count of rows without pricing data by one; that count however
conflates it with resources whose rule is present but whose lookups
failed. -/
theorem no_rule_null_row (ctx : EstCtx) (sn : String) (res : ResourceChange)
    (st : EstState) (hs : skipRes res = false)
    (hf : ctx.resourceMap.free.contains res.type = false)
    (hr : ctx.resourceMap.findRule res.type = none) :
    processResource ctx sn res st = { st with rows := st.rows ++ [nullRow sn res] } ∧
    (nullRow sn res).before = none ∧ (nullRow sn res).after = none ∧
    (nullRow sn res).delta = none ∧
    unmappedCount (st.rows ++ [nullRow sn res]) = unmappedCount st.rows + 1 := by
  refine ⟨proc_none ctx sn res st hs hf hr, rfl, rfl, rfl, ?_⟩
  simp [unmappedCount, List.filter_append, nullRow]

/-- Witness for C7 at the unmapped queue fixture. -/
theorem no_rule_null_row_w :
    processResource ctxNoRule "Net" resQueue initState =
      { initState with rows := initState.rows ++ [nullRow "Net" resQueue] } ∧
    (nullRow "Net" resQueue).before = none ∧ (nullRow "Net" resQueue).after = none ∧
    (nullRow "Net" resQueue).delta = none ∧
    unmappedCount (initState.rows ++ [nullRow "Net" resQueue]) =
      unmappedCount initState.rows + 1 :=
  no_rule_null_row ctxNoRule "Net" resQueue initState (by decide) (by decide) (by decide)

/-- C2 counterexample: a rule carrying an hourly multiplier of 0 next to
a quantity multiplier of 2 applies the quantity multiplier (unit price 5
yields 10), while the claim's reading, the hourly multiplier whenever
present, would yield 5 times 0; the source tests the multipliers with
truthiness, so a present-but-zero hourly multiplier is passed over. -/
theorem multiplier_zero_diverges :
    ruleZeroHours.monthlyHours = some 0 ∧
    monthlyCost 5 ruleZeroHours = 10 ∧
    specMonthlyCost 5 ruleZeroHours = 0 ∧
    monthlyCost 5 ruleZeroHours ≠ specMonthlyCost 5 ruleZeroHours := by
  refine ⟨rfl, by with_unfolding_all rfl, by with_unfolding_all rfl, ?_⟩
  rw [show monthlyCost 5 ruleZeroHours = 10 from by with_unfolding_all rfl,
    show specMonthlyCost 5 ruleZeroHours = 0 from by with_unfolding_all rfl]
  norm_num

/-- C2 (amended): for an ADD with a successful lookup the emitted row
has null before and after equal to unit price times the rule's
multiplier, for a REMOVE the emitted row has null after and before
equal to unit price times the multiplier; the multiplier applied is
the hourly one when present and nonzero, else the quantity one when
present and nonzero, and otherwise the monthly cost is the unit price
unmodified. -/
theorem add_remove_cost_rows (ctx : EstCtx) (sn : String) (res : ResourceChange)
    (st : EstState) (m : PricingRule)
    (hr : ctx.resourceMap.findRule res.type = some m)
    (hs : skipRes res = false)
    (hf : ctx.resourceMap.free.contains res.type = false) :
    (∀ q, res.action = DiffAction.ADD →
      (queryPrice ctx st.cache m.serviceCode (buildFilters m res.properties true)).fst = some q →
      ∃ row, (processResource ctx sn res st).rows = st.rows ++ [row] ∧
        row.before = none ∧ row.after = some (monthlyCost q.usd m)) ∧
    (∀ q, res.action = DiffAction.REMOVE →
      (queryPrice ctx st.cache m.serviceCode (buildFilters m res.properties false)).fst = some q →
      ∃ row, (processResource ctx sn res st).rows = st.rows ++ [row] ∧
        row.after = none ∧ row.before = some (monthlyCost q.usd m)) ∧
    (∀ u h, m.monthlyHours = some h → h ≠ 0 → monthlyCost u m = u * h) ∧
    (∀ u qty, truthyQ m.monthlyHours = false → m.monthlyQuantity = some qty → qty ≠ 0 →
      monthlyCost u m = u * qty) ∧
    (∀ u, truthyQ m.monthlyHours = false → truthyQ m.monthlyQuantity = false →
      monthlyCost u m = u) := by
  refine ⟨?_, ?_, ?_, ?_, ?_⟩
  · intro q ha hq
    rw [proc_mapped ctx sn res st m hs hf hr]
    refine ⟨mappedRowAt ctx m sn res st.cache, by simp [mappedState], ?_, ?_⟩
    · simp [mappedRowAt, priceDirections, ha, hq]
    · simp [mappedRowAt, priceDirections, ha, hq]
  · intro q ha hq
    rw [proc_mapped ctx sn res st m hs hf hr]
    refine ⟨mappedRowAt ctx m sn res st.cache, by simp [mappedState], ?_, ?_⟩
    · simp [mappedRowAt, priceDirections, ha, hq]
    · simp [mappedRowAt, priceDirections, ha, hq]
  · intro u h hh hne
    simp [monthlyCost, truthyQ, hh, hne]
  · intro u qty hhf hq hne
    have h2 : truthyQ (some qty) = true := by simp [truthyQ, hne]
    simp [monthlyCost, hhf, hq, h2]
  · intro u hhf hqf
    simp [monthlyCost, hhf, hqf]

/-- Witness for C2 at the added EC2 instance fixture. -/
theorem add_remove_cost_rows_w :
    ∃ row, (processResource ctxPos "Net" resAdd initState).rows = initState.rows ++ [row] ∧
      row.before = none ∧ row.after = some (monthlyCost quotePos.usd ruleHours) :=
  (add_remove_cost_rows ctxPos "Net" resAdd initState ruleHours
    (by decide) (by decide) (by decide)).1 quotePos rfl (by decide)

theorem findDetail_first (fs : List FilterSpec) (props : List PropertyDiff) :
    findDetail fs props =
      ((fs.find? (detailMatches props)).map (detailFor props)).getD emptyS := by
  induction fs with
  | nil => simp [findDetail, List.find?]
  | cons f rest ih =>
    cases hc : truthy f.Value.cfProperty with
    | false =>
      have hm : detailMatches props f = false := by simp [detailMatches, hc]
      simp [findDetail, hc, List.find?_cons, hm, ih]
    | true =>
      cases hfind : props.find? (fun p => some p.name == f.Value.cfProperty) with
      | none =>
        have hm : detailMatches props f = false := by simp [detailMatches, hc, hfind]
        simp [findDetail, hc, hfind, List.find?_cons, hm, ih]
      | some prop =>
        by_cases hcond : (truthy prop.oldValue && truthy prop.newValue &&
            prop.oldValue != prop.newValue) = true
        · have hm : detailMatches props f = true := by
            simp [detailMatches, hc, hfind, hcond]
          simp [findDetail, hc, hfind, hcond, List.find?_cons, hm, detailFor]
        · have hcond2 : (truthy prop.oldValue && truthy prop.newValue &&
              prop.oldValue != prop.newValue) = false := by
            revert hcond
            cases truthy prop.oldValue && truthy prop.newValue &&
              prop.oldValue != prop.newValue <;> simp
          have hm : detailMatches props f = false := by
            simp [detailMatches, hc, hfind, hcond2]
          simp [findDetail, hc, hfind, hcond2, List.find?_cons, hm, ih]

/-- C9: the UPDATE change detail is found by scanning the rule's
FilterSpecs in their given order for the first fromProperty filter
whose property change carries truthy old and new values that differ,
rendered as old-arrow-new, and is the empty string when no filter
qualifies; every emitted priced row carries that detail exactly when its
action is UPDATE and the empty detail otherwise. -/
theorem update_detail :
    (∀ (fs : List FilterSpec) (props : List PropertyDiff),
      findDetail fs props =
        ((fs.find? (detailMatches props)).map (detailFor props)).getD emptyS) ∧
    (∀ (ctx : EstCtx) (sn : String) (res : ResourceChange) (st : EstState)
      (mapping : PricingRule), skipRes res = false →
      ctx.resourceMap.free.contains res.type = false →
      ctx.resourceMap.findRule res.type = some mapping →
      ∃ row, (processResource ctx sn res st).rows = st.rows ++ [row] ∧
        row.detail = (if res.action = DiffAction.UPDATE then
          findDetail mapping.filters res.properties else emptyS)) := by
  refine ⟨findDetail_first, ?_⟩
  intro ctx sn res st mapping hs hf hr
  rw [proc_mapped ctx sn res st mapping hs hf hr]
  exact ⟨mappedRowAt ctx mapping sn res st.cache, by simp [mappedState], rfl⟩

/-- Witness for C9 at the updated EC2 instance fixture, whose detail
renders the instance-type change. -/
theorem update_detail_w :
    (∃ row, (processResource ctxPos "Net" resUpd initState).rows =
        initState.rows ++ [row] ∧
      row.detail = (if resUpd.action = DiffAction.UPDATE then
        findDetail ruleHours.filters resUpd.properties else emptyS)) ∧
    findDetail ruleHours.filters resUpd.properties = "t3.small → t3.large" :=
  ⟨update_detail.2 ctxPos "Net" resUpd initState ruleHours
    (by decide) (by decide) (by decide), by decide⟩

theorem buildFilters_value_ne (m : PricingRule) (props : List PropertyDiff) (dir : Bool) :
    ∀ flt ∈ buildFilters m props dir, flt.Value ≠ emptyS := by
  intro flt hmem
  rcases List.mem_filterMap.mp hmem with ⟨f, hf, hsome⟩
  rcases hres : resolveFilterValue f.Value props dir with _ | s
  · rw [hres] at hsome
    simp [truthy] at hsome
  · rw [hres] at hsome
    by_cases hs : s = emptyS
    · subst hs
      simp [truthy] at hsome
    · have ht : truthy (some s) = true := by simp [truthy, hs]
      rw [if_pos ht] at hsome
      have hflt : flt = { Field := f.Field, Value := s } := by
        injection hsome with h2
        exact h2.symm
      rw [hflt]
      exact hs

theorem buildFilters_omits (m : PricingRule) (props : List PropertyDiff) (dir : Bool)
    (fld : String) (v : ValueSpec) (hm : m.filters = [{ Field := fld, Value := v }])
    (hres : resolveFilterValue v props dir = none) :
    buildFilters m props dir = [] := by
  simp [buildFilters, hm, hres, truthy]

/-- C3: a fromProperty FilterSpec resolves, for the requested direction,
to the property's directional value when the named property is present
with a truthy value that is not the literal null or undefined string;
when the property is absent or its value fails that test, it resolves to
the ValueSpec's default when that is truthy and to nothing otherwise;
a filter resolving to nothing is omitted from the pricing query
entirely, and no filter is ever sent with an empty value. -/
theorem from_property_resolution (v : ValueSpec) (props : List PropertyDiff) (dir : Bool)
    (hcf : truthy v.cfProperty = true) :
    (∀ p, props.find? (fun x => some x.name == v.cfProperty) = some p →
      ((truthy (if dir then p.newValue else p.oldValue) = true ∧
        (if dir then p.newValue else p.oldValue) ≠ some nullS ∧
        (if dir then p.newValue else p.oldValue) ≠ some undefinedS) →
        resolveFilterValue v props dir = (if dir then p.newValue else p.oldValue)) ∧
      ((truthy (if dir then p.newValue else p.oldValue) = false ∨
        (if dir then p.newValue else p.oldValue) = some nullS ∨
        (if dir then p.newValue else p.oldValue) = some undefinedS) →
        resolveFilterValue v props dir =
          (if truthy v.default then v.default else none))) ∧
    (props.find? (fun x => some x.name == v.cfProperty) = none →
      resolveFilterValue v props dir =
        (if truthy v.default then v.default else none)) ∧
    (∀ (m : PricingRule) (flt : QueryFilter), flt ∈ buildFilters m props dir →
      flt.Value ≠ emptyS) ∧
    (∀ (m : PricingRule) (fld : String), m.filters = [{ Field := fld, Value := v }] →
      resolveFilterValue v props dir = none → buildFilters m props dir = []) := by
  have hd1 : (truthy v.default && !truthy v.cfProperty) = false := by simp [hcf]
  refine ⟨?_, ?_, ?_, ?_⟩
  · intro p hp
    constructor
    · intro hcondAnd
      obtain ⟨h1, h2, h3⟩ := hcondAnd
      have hBool : (truthy (if dir then p.newValue else p.oldValue) &&
          (if dir then p.newValue else p.oldValue) != some nullS &&
          (if dir then p.newValue else p.oldValue) != some undefinedS) = true := by
        simp [h1, h2, h3]
      simp [resolveFilterValue, hd1, hcf, hp, hBool]
    · intro hbad
      have hBool : (truthy (if dir then p.newValue else p.oldValue) &&
          (if dir then p.newValue else p.oldValue) != some nullS &&
          (if dir then p.newValue else p.oldValue) != some undefinedS) = false := by
        rcases hbad with h | h | h
        · simp [h]
        · simp [h]
        · simp [h]
      simp [resolveFilterValue, hd1, hcf, hp, hBool]
  · intro hp
    simp [resolveFilterValue, hd1, hcf, hp]
  · intro m flt hmem
    exact buildFilters_value_ne m props dir flt hmem
  · intro m fld hm hres
    exact buildFilters_omits m props dir fld v hm hres

/-- Witness for C3 at the instance-type fixture: the new-direction value
of the changed property is used. -/
theorem from_property_resolution_w :
    resolveFilterValue vsInstanceType [propInstType] true = some "t3.large" := by
  have h := ((from_property_resolution vsInstanceType [propInstType] true
    (by decide)).1 propInstType (by decide)).1 (by decide)
  simpa using h

theorem findCache_some_mem (c : List (CacheKey × Option PriceQuote)) (k : CacheKey)
    (v : Option PriceQuote) (h : findCache c k = some v) : k ∈ c.map Prod.fst := by
  unfold findCache at h
  rcases hf : c.find? (fun e => e.fst == k) with _ | e
  · rw [hf] at h
    cases h
  · have he := List.find?_some hf
    have hmem := List.mem_of_find?_eq_some hf
    have hek : e.fst = k := by simpa using he
    exact hek ▸ List.mem_map_of_mem Prod.fst hmem

theorem findCache_none_notMem (c : List (CacheKey × Option PriceQuote)) (k : CacheKey)
    (h : findCache c k = none) : k ∉ c.map Prod.fst := by
  unfold findCache at h
  rcases hf : c.find? (fun e => e.fst == k) with _ | e
  · intro hk
    rcases List.mem_map.mp hk with ⟨e, he, rfl⟩
    have hne := List.find?_eq_none.mp hf e he
    simp at hne
  · rw [hf] at h
    cases h

theorem cacheInv_query (ctx : EstCtx) (st : CacheState) (sc : String)
    (fs : List QueryFilter) (h : CacheInv st) : CacheInv (queryPrice ctx st sc fs).snd := by
  obtain ⟨h1, h2, h3⟩ := h
  simp only [queryPrice]
  rcases hfc : findCache st.cache (cacheKey sc fs) with _ | v
  · have hnot : cacheKey sc fs ∉ callKeys st := by
      have hn := findCache_none_notMem st.cache (cacheKey sc fs) hfc
      rw [h1] at hn
      simpa [List.mem_reverse] using hn
    refine ⟨?_, ?_, ?_⟩
    · simp [callKeys, List.map_append, h1]
    · simp [callKeys, List.map_append, List.nodup_append]
      exact ⟨h2, by simpa [callKeys] using hnot⟩
    · intro q hq
      rcases List.mem_append.mp hq with hh | hh
      · exact List.mem_cons_of_mem _ (h3 q hh)
      · have hq2 : q = (sc, fs) := by simpa using hh
        subst hq2
        exact List.mem_cons_self _ _
  · refine ⟨h1, h2, ?_⟩
    intro q hq
    rcases List.mem_append.mp hq with hh | hh
    · exact h3 q hh
    · have hq2 : q = (sc, fs) := by simpa using hh
      subst hq2
      exact findCache_some_mem st.cache (cacheKey sc fs) v hfc

theorem cacheInv_dirs (ctx : EstCtx) (m : PricingRule) (res : ResourceChange)
    (cache : CacheState) (h : CacheInv cache) :
    CacheInv (priceDirections ctx m res cache).cache := by
  rcases ha : res.action
  · simp only [priceDirections, ha]
    rcases hq : (queryPrice ctx cache m.serviceCode
        (buildFilters m res.properties true)).fst with _ | p
    · exact cacheInv_query ctx cache _ _ h
    · exact cacheInv_query ctx cache _ _ h
  · simp only [priceDirections, ha]
    exact cacheInv_query ctx _ _ _ (cacheInv_query ctx cache _ _ h)
  · simp only [priceDirections, ha]
    rcases hq : (queryPrice ctx cache m.serviceCode
        (buildFilters m res.properties false)).fst with _ | p
    · exact cacheInv_query ctx cache _ _ h
    · exact cacheInv_query ctx cache _ _ h

theorem cacheInv_proc (ctx : EstCtx) (sn : String) (res : ResourceChange)
    (st : EstState) (h : CacheInv st.cache) :
    CacheInv (processResource ctx sn res st).cache := by
  cases hs : skipRes res with
  | true => rw [proc_skip ctx sn res st hs]; exact h
  | false =>
    cases hf : ctx.resourceMap.free.contains res.type with
    | true => rw [proc_free ctx sn res st hs hf]; exact h
    | false =>
      cases hr : ctx.resourceMap.findRule res.type with
      | none => rw [proc_none ctx sn res st hs hf hr]; exact h
      | some mapping =>
        rw [proc_mapped ctx sn res st mapping hs hf hr]
        exact cacheInv_dirs ctx mapping res st.cache h

theorem cacheInv_procs (ctx : EstCtx) (sn : String) (rs : List ResourceChange) :
    ∀ st, CacheInv st.cache → CacheInv (processResources ctx sn rs st).cache := by
  induction rs with
  | nil => intro st h; exact h
  | cons r rs ih => intro st h; exact ih _ (cacheInv_proc ctx sn r st h)

theorem cacheInv_stack (ctx : EstCtx) (s : StackDiff) (st : EstState)
    (h : CacheInv st.cache) : CacheInv (processStack ctx s st).cache := by
  unfold processStack
  by_cases hd : s.hasDiff
  · simpa [hd] using cacheInv_procs ctx s.stackName s.resources st h
  · simpa [hd] using h

theorem cacheInv_stacks (ctx : EstCtx) (ss : List StackDiff) :
    ∀ st, CacheInv st.cache → CacheInv (processStacks ctx ss st).cache := by
  induction ss with
  | nil => intro st h; exact h
  | cons s ss ih => intro st h; exact ih _ (cacheInv_stack ctx s st h)

theorem cacheInv_estimate (ctx : EstCtx) (report : ChangeReport) :
    CacheInv (estimate ctx report).cache := by
  refine cacheInv_stacks ctx report initState ⟨?_, ?_, ?_⟩
  · simp [initState, callKeys]
  · simp [initState, callKeys]
  · intro q hq
    simp [initState] at hq

/-- C4: within one run the external pricing calls have pairwise distinct
canonical keys (service identifier plus the filters sorted by field
name), so any set of requests sharing one (serviceId, filters) pair
causes exactly one external call; and every request's key is covered by
a call, later identical requests being answered from the cache, also
when the first lookup yielded no quote or failed. -/
theorem pricing_memoized (ctx : EstCtx) (report : ChangeReport) :
    (callKeys (estimate ctx report).cache).Nodup ∧
    ∀ q ∈ (estimate ctx report).cache.requests,
      ∃ c ∈ (estimate ctx report).cache.calls,
        cacheKey c.fst c.snd = cacheKey q.fst q.snd := by
  obtain ⟨h1, h2, h3⟩ := cacheInv_estimate ctx report
  refine ⟨h2, ?_⟩
  intro q hq
  have hk := h3 q hq
  rw [h1, List.mem_reverse] at hk
  rcases List.mem_map.mp hk with ⟨c, hc, hkey⟩
  exact ⟨c, hc, hkey⟩

/-- Witness for C4: the report pricing the same instance twice answers
the second request from the cache, so some single call covers its key. -/
theorem pricing_memoized_w :
    ∃ c ∈ (estimate ctxPos reportAddTwice).cache.calls,
      cacheKey c.fst c.snd = cacheKey qAdd.fst qAdd.snd := by
  have hm : qAdd ∈ (estimate ctxPos reportAddTwice).cache.requests := by
    have hr : (estimate ctxPos reportAddTwice).cache.requests = [qAdd, qAdd] := by
      with_unfolding_all rfl
    rw [hr]
    exact List.mem_cons_self _ _
  exact (pricing_memoized ctxPos reportAddTwice).2 qAdd hm

theorem sortFilters_idem (fs : List QueryFilter) :
    sortFilters (sortFilters fs) = sortFilters fs :=
  List.Sorted.insertionSort_eq (List.sorted_insertionSort filterLe fs)

theorem canonLookup_key (ctx : EstCtx) (hOI : OrderInsensitive ctx) (sc : String)
    (fs : List QueryFilter) : canonLookup ctx (cacheKey sc fs) = pureLookup ctx sc fs := by
  simp only [canonLookup, cacheKey, pureLookup]
  rw [hOI sc (sortFilters fs) fs (sortFilters_idem fs)]

theorem findCache_some_entry (c : List (CacheKey × Option PriceQuote)) (k : CacheKey)
    (v : Option PriceQuote) (h : findCache c k = some v) :
    ∃ e ∈ c, e.fst = k ∧ e.snd = v := by
  unfold findCache at h
  rcases hf : c.find? (fun e => e.fst == k) with _ | e
  · rw [hf] at h
    cases h
  · rw [hf] at h
    refine ⟨e, List.mem_of_find?_eq_some hf, ?_, ?_⟩
    · have he := List.find?_some hf
      simpa using he
    · injection h

theorem queryPrice_pure (ctx : EstCtx) (st : CacheState) (sc : String)
    (fs : List QueryFilter) (hOI : OrderInsensitive ctx)
    (hc : CoherentCache ctx st) :
    (queryPrice ctx st sc fs).fst = pureLookup ctx sc fs ∧
    CoherentCache ctx (queryPrice ctx st sc fs).snd := by
  simp only [queryPrice]
  rcases hfc : findCache st.cache (cacheKey sc fs) with _ | v
  · constructor
    · rfl
    · intro e he
      rcases List.mem_cons.mp he with he2 | he2
      · rw [he2]
        rw [canonLookup_key ctx hOI sc fs]
        rfl
      · exact hc e he2
  · constructor
    · rcases findCache_some_entry st.cache (cacheKey sc fs) v hfc with ⟨e, hmem, hk, hv⟩
      have hcv := hc e hmem
      rw [hv, hk] at hcv
      rw [hcv, canonLookup_key ctx hOI sc fs]
    · intro e he
      exact hc e he

theorem dirs_pure (ctx : EstCtx) (m : PricingRule) (res : ResourceChange)
    (cache : CacheState) (hOI : OrderInsensitive ctx) (hc : CoherentCache ctx cache) :
    (priceDirections ctx m res cache).beforeCost = (pureOutcome ctx m res).fst ∧
    (priceDirections ctx m res cache).afterCost = (pureOutcome ctx m res).snd ∧
    CoherentCache ctx (priceDirections ctx m res cache).cache := by
  rcases ha : res.action
  · obtain ⟨hq1, hq2⟩ := queryPrice_pure ctx cache m.serviceCode
      (buildFilters m res.properties true) hOI hc
    simp only [priceDirections, pureOutcome, ha]
    rcases hq : (queryPrice ctx cache m.serviceCode
        (buildFilters m res.properties true)).fst with _ | p
    · rw [hq] at hq1
      refine ⟨rfl, ?_, hq2⟩
      rw [← hq1]
      rfl
    · rw [hq] at hq1
      refine ⟨rfl, ?_, hq2⟩
      rw [← hq1]
      rfl
  · obtain ⟨ho1, hco⟩ := queryPrice_pure ctx cache m.serviceCode
      (buildFilters m res.properties false) hOI hc
    obtain ⟨hn1, hcn⟩ := queryPrice_pure ctx
      (queryPrice ctx cache m.serviceCode (buildFilters m res.properties false)).snd
      m.serviceCode (buildFilters m res.properties true) hOI hco
    simp only [priceDirections, pureOutcome, ha]
    exact ⟨by rw [ho1], by rw [hn1], hcn⟩
  · obtain ⟨hq1, hq2⟩ := queryPrice_pure ctx cache m.serviceCode
      (buildFilters m res.properties false) hOI hc
    simp only [priceDirections, pureOutcome, ha]
    rcases hq : (queryPrice ctx cache m.serviceCode
        (buildFilters m res.properties false)).fst with _ | p
    · rw [hq] at hq1
      refine ⟨?_, rfl, hq2⟩
      rw [← hq1]
      rfl
    · rw [hq] at hq1
      refine ⟨?_, rfl, hq2⟩
      rw [← hq1]
      rfl

theorem proc_decomp (ctx : EstCtx) (sn : String) (res : ResourceChange) (st : EstState)
    (hOI : OrderInsensitive ctx) (hc : CoherentCache ctx st.cache) :
    (processResource ctx sn res st).rows =
      st.rows ++ (if keepRes ctx.resourceMap res then [rowOf ctx sn res] else []) ∧
    CoherentCache ctx (processResource ctx sn res st).cache := by
  cases hs : skipRes res with
  | true =>
    rw [proc_skip ctx sn res st hs]
    exact ⟨by simp [keepRes, hs], hc⟩
  | false =>
    cases hf : ctx.resourceMap.free.contains res.type with
    | true =>
      rw [proc_free ctx sn res st hs hf]
      have hf2 : res.type ∈ ctx.resourceMap.free := by simpa using hf
      exact ⟨by simp [keepRes, hs, hf2], hc⟩
    | false =>
      have hf2 : res.type ∉ ctx.resourceMap.free := by simpa using hf
      have hk : keepRes ctx.resourceMap res = true := by simp [keepRes, hs, hf2]
      cases hr : ctx.resourceMap.findRule res.type with
      | none =>
        rw [proc_none ctx sn res st hs hf hr]
        refine ⟨?_, hc⟩
        simp [hk, rowOf, hr]
      | some mapping =>
        rw [proc_mapped ctx sn res st mapping hs hf hr]
        obtain ⟨hb, haf, hcc⟩ := dirs_pure ctx mapping res st.cache hOI hc
        refine ⟨?_, hcc⟩
        have hrow : mappedRowAt ctx mapping sn res st.cache = rowOf ctx sn res := by
          simp [mappedRowAt, rowOf, hr, hb, haf]
        simp [mappedState, hk, hrow]

theorem procs_decomp (ctx : EstCtx) (sn : String) (rs : List ResourceChange)
    (hOI : OrderInsensitive ctx) :
    ∀ st, CoherentCache ctx st.cache →
      (processResources ctx sn rs st).rows =
        st.rows ++ (rs.filter (fun r => keepRes ctx.resourceMap r)).map (rowOf ctx sn) ∧
      CoherentCache ctx (processResources ctx sn rs st).cache := by
  induction rs with
  | nil => intro st hc; exact ⟨by simp [processResources], hc⟩
  | cons r rs ih =>
    intro st hc
    obtain ⟨h1, h2⟩ := proc_decomp ctx sn r st hOI hc
    obtain ⟨h3, h4⟩ := ih (processResource ctx sn r st) h2
    refine ⟨?_, h4⟩
    rw [processResources, h3, h1, List.filter_cons]
    cases hk : keepRes ctx.resourceMap r <;> simp [hk]

theorem stack_decomp (ctx : EstCtx) (s : StackDiff) (st : EstState)
    (hOI : OrderInsensitive ctx) (hc : CoherentCache ctx st.cache) :
    (processStack ctx s st).rows =
      st.rows ++ (if s.hasDiff then
        (s.resources.filter (fun r => keepRes ctx.resourceMap r)).map
          (rowOf ctx s.stackName) else []) ∧
    CoherentCache ctx (processStack ctx s st).cache := by
  unfold processStack
  by_cases hd : s.hasDiff
  · obtain ⟨h1, h2⟩ := procs_decomp ctx s.stackName s.resources hOI st hc
    exact ⟨by simpa [hd] using h1, by simpa [hd] using h2⟩
  · exact ⟨by simp [hd], by simpa [hd] using hc⟩

theorem stacks_decomp (ctx : EstCtx) (ss : List StackDiff)
    (hOI : OrderInsensitive ctx) :
    ∀ st, CoherentCache ctx st.cache →
      (processStacks ctx ss st).rows =
        st.rows ++ (processedChanges ctx.resourceMap ss).map
          (fun pr => rowOf ctx pr.fst pr.snd) ∧
      CoherentCache ctx (processStacks ctx ss st).cache := by
  induction ss with
  | nil => intro st hc; exact ⟨by simp [processStacks, processedChanges], hc⟩
  | cons s ss ih =>
    intro st hc
    obtain ⟨h1, h2⟩ := stack_decomp ctx s st hOI hc
    obtain ⟨h3, h4⟩ := ih (processStack ctx s st) h2
    refine ⟨?_, h4⟩
    rw [processStacks, h3, h1]
    have hpc : processedChanges ctx.resourceMap (s :: ss) =
        (if s.hasDiff then
          (s.resources.filter (fun r => keepRes ctx.resourceMap r)).map
            (fun r => (s.stackName, r)) else []) ++ processedChanges ctx.resourceMap ss := by
      by_cases hd : s.hasDiff <;> simp [processedChanges, List.filter_cons, hd]
    rw [hpc]
    by_cases hd : s.hasDiff <;> simp [hd, List.map_map, Function.comp]

/-- C5: only a parse failure of the two JSON inputs skips the whole
estimation and it surfaces as a structured error; a pricing call that
throws is caught and yields no quote; and for an order-insensitive
pricing service the run's rows decompose into exactly one row per
processed resource change, each a function of that resource's own
lookups alone, so a single resource's lookup failure only nulls that
row and a best-effort result covering every other resource is always
returned. -/
theorem failure_isolation :
    (∀ (svc : String → List QueryFilter → LookupResponse) (loc msg : String),
      runEstimator svc loc (ParsedInput.malformed msg) = ScriptResult.failed msg) ∧
    (∀ (svc : String → List QueryFilter → LookupResponse) (loc : String)
      (report : ChangeReport) (m : ResourceMap),
      runEstimator svc loc (ParsedInput.ok report m) =
        ScriptResult.estimated (estimate ⟨svc, loc, m⟩ report)) ∧
    (∀ e, interpLookup (LookupResponse.err e) = none) ∧
    (∀ (ctx : EstCtx) (report : ChangeReport), OrderInsensitive ctx →
      (estimate ctx report).rows =
        (processedChanges ctx.resourceMap report).map
          (fun pr => rowOf ctx pr.fst pr.snd)) := by
  refine ⟨fun _ _ _ => rfl, fun _ _ _ _ => rfl, fun _ => rfl, ?_⟩
  intro ctx report hOI
  have hc0 : CoherentCache ctx initState.cache := by
    intro e he
    simp [initState] at he
  have h := (stacks_decomp ctx report hOI initState hc0).1
  simpa [initState] using h

/-- Witness for C5: under the always-failing oracle, which is trivially
order-insensitive, the run still emits its full row list. -/
theorem failure_isolation_w :
    (estimate ctxErr reportAdd).rows =
      (processedChanges ctxErr.resourceMap reportAdd).map
        (fun pr => rowOf ctxErr pr.fst pr.snd) :=
  failure_isolation.2.2.2 ctxErr reportAdd (fun _ _ _ _ => rfl)

end CostEst
